import Mathlib

/-!
Verification of the trust-exchange simulation (src/main.rs) against its design
specification. The per-stock state, the agent-side sell/buy/retry protocol, the
seller wake scan and the coordinator shutdown sequence are embedded as Lean
functions over integers and lists; machine `i32` arithmetic never overflows in
the claims considered (all quantities stay tiny), so shares and holdings are
modelled as `Int`. Thread handles (`thread::Thread`) are opaque wake tokens,
modelled as `Nat` identifiers.
-/

namespace TrustExchange

/-- Embeds `struct PurchaseRequest` (main.rs lines 17-20): a queued buy order,
holding the wake token of the requesting agent and the desired share count. -/
structure PurchaseRequest where
  person : Nat
  amount : Int
deriving DecidableEq, Repr, Inhabited

/-- Embeds `struct Stock` (main.rs lines 22-25): the shared share pool and the
FIFO queue of pending purchase requests. The list head is the queue front. -/
structure Stock where
  shares : Int
  queue : List PurchaseRequest
deriving DecidableEq, Repr, Inhabited

/-- Embeds the seller wake loop (main.rs lines 112-125). `sh` is the stock's
share count after the sell (`stock.shares`, never changed by the loop), the
list is the queue, and `est` is the running `estimated_stocks_left`. The loop
runs while the queue is non-empty and `est > 0`; it pops the front request,
wakes it when `amount <= sh` (subtracting the amount from `est`), and otherwise
pushes it back to the front and stops. Returns the remaining queue and the
woken requests in FIFO order. -/
def wakeScan (sh : Int) : List PurchaseRequest → Int → List PurchaseRequest × List PurchaseRequest
  | [], _ => ([], [])
  | r :: rest, est =>
    if est ≤ 0 then (r :: rest, [])
    else if r.amount ≤ sh then
      ((wakeScan sh rest (est - r.amount)).1, r :: (wakeScan sh rest (est - r.amount)).2)
    else (r :: rest, [])

/-- Embeds the sell branch of the agent loop (main.rs lines 88-125): the drawn
amount `a` is negative; its magnitude is capped to the agent's holdings `h` of
the target stock, then `stock.shares -= amount` and `holdings += amount`, and
finally the wake scan runs on the updated stock. Returns the updated stock, the
agent's updated holdings for that stock, and the list of woken requests. -/
def sellStep (st : Stock) (h a : Int) : Stock × Int × List PurchaseRequest :=
  let a' := if -a > h then -h else a
  let sh' := st.shares - a'
  let scan := wakeScan sh' st.queue sh'
  (⟨sh', scan.1⟩, h + a', scan.2)

/-- Outcome of a first buy attempt (spec section 4.1). -/
inductive BuyOutcome
  | Immediate
  | Enqueued
deriving DecidableEq, Repr

/-- Embeds the buy branch of the agent loop under the lock (main.rs lines
140-183), the `try_buy_or_enqueue` contract of spec section 4.1: if the queue
is non-empty, push the request at the back and report `Enqueued`; if the queue
is empty but `shares < amount`, likewise enqueue; otherwise decrement `shares`
and increment the agent's holdings, reporting `Immediate`. `p` is the wake
token of the buying agent. -/
def try_buy_or_enqueue (st : Stock) (h : Int) (p : Nat) (a : Int) :
    Stock × Int × BuyOutcome :=
  if st.queue.length > 0 then
    (⟨st.shares, st.queue ++ [⟨p, a⟩]⟩, h, BuyOutcome.Enqueued)
  else if st.shares < a then
    (⟨st.shares, st.queue ++ [⟨p, a⟩]⟩, h, BuyOutcome.Enqueued)
  else
    (⟨st.shares - a, st.queue⟩, h + a, BuyOutcome.Immediate)

/-- Outcome of a post-wake retry (spec section 4.1). -/
inductive RetryOutcome
  | Bought
  | Abandoned
deriving DecidableEq, Repr

/-- Embeds the post-wake retry under a freshly reacquired lock (main.rs lines
189-207), the `retry_after_wake` contract of spec section 4.1: if
`shares >= amount` the purchase completes, otherwise the order is dropped with
no requeue. The queue is never touched here. -/
def retry_after_wake (st : Stock) (h a : Int) : Stock × Int × RetryOutcome :=
  if st.shares ≥ a then (⟨st.shares - a, st.queue⟩, h + a, RetryOutcome.Bought)
  else (st, h, RetryOutcome.Abandoned)

/-- Global simulation state: the list of stocks and, per agent, the per-stock
holdings vector (main.rs: the `stocks` vector and each thread's
`shares_of_each_stock`). -/
structure ExchState where
  stocks : List Stock
  holdings : List (List Int)
deriving DecidableEq, Repr

/-- Stock at index `s` (out-of-range reads default, used only under an
in-range hypothesis). -/
def stockAt (σ : ExchState) (s : Nat) : Stock := σ.stocks.getD s default

/-- Agent `i`'s holdings of stock `s`. -/
def holdingAt (σ : ExchState) (i s : Nat) : Int := (σ.holdings.getD i []).getD s 0

/-- Writes back the updated stock `st'` at index `s` and agent `i`'s updated
holdings `h'` of stock `s`. -/
def updState (σ : ExchState) (i s : Nat) (st' : Stock) (h' : Int) : ExchState :=
  ⟨σ.stocks.set s st', σ.holdings.set i ((σ.holdings.getD i []).set s h')⟩

/-- State after agent `i` executes the sell branch on stock `s` with drawn
amount `a`. -/
def sellResult (σ : ExchState) (i s : Nat) (a : Int) : ExchState :=
  let r := sellStep (stockAt σ s) (holdingAt σ i s) a
  updState σ i s r.1 r.2.1

/-- State after agent `i` executes the buy branch on stock `s` with drawn
amount `a`. -/
def buyResult (σ : ExchState) (i s : Nat) (a : Int) : ExchState :=
  let r := try_buy_or_enqueue (stockAt σ s) (holdingAt σ i s) i a
  updState σ i s r.1 r.2.1

/-- State after agent `i`, woken while holding a pending request of amount `a`
on stock `s`, executes the post-wake retry. -/
def retryResult (σ : ExchState) (i s : Nat) (a : Int) : ExchState :=
  let r := retry_after_wake (stockAt σ s) (holdingAt σ i s) a
  updState σ i s r.1 r.2.1

/-- One observable mutation of the exchange state by some agent, as performed
in the agent loop of main.rs: a sell (drawn amount negative), a first buy
attempt (drawn amount positive), or a post-wake retry (the pending amount is
positive because only the buy branch enqueues). Interleaving of agents is
arbitrary; each step mutates one stock and the acting agent's holdings under
that stock's lock. -/
inductive Step : ExchState → ExchState → Prop
  | sell (σ : ExchState) (i s : Nat) (a : Int) :
      a < 0 → i < σ.holdings.length → s < σ.stocks.length →
      s < (σ.holdings.getD i []).length →
      Step σ (sellResult σ i s a)
  | buy (σ : ExchState) (i s : Nat) (a : Int) :
      0 < a → i < σ.holdings.length → s < σ.stocks.length →
      s < (σ.holdings.getD i []).length →
      Step σ (buyResult σ i s a)
  | retry (σ : ExchState) (i s : Nat) (a : Int) :
      0 < a → i < σ.holdings.length → s < σ.stocks.length →
      s < (σ.holdings.getD i []).length →
      Step σ (retryResult σ i s a)

/-- Sum of all stocks' available shares. -/
def totalShares (σ : ExchState) : Int := (σ.stocks.map Stock.shares).sum

/-- Sum of all agents' holdings over all stocks. -/
def totalHoldings (σ : ExchState) : Int := (σ.holdings.map List.sum).sum

/-- The grand total reconciled by the coordinator (main.rs lines 225-246). -/
def grandTotal (σ : ExchState) : Int := totalShares σ + totalHoldings σ

/-- Nonnegativity invariant of spec section 8: every stock's share count and
every holdings entry is nonnegative. -/
def Inv (σ : ExchState) : Prop :=
  (∀ st ∈ σ.stocks, 0 ≤ st.shares) ∧ (∀ hv ∈ σ.holdings, ∀ x ∈ hv, 0 ≤ x)

/-! Helper lemmas about list updates and sums. -/

theorem sum_set_int (l : List Int) (n : Nat) (x : Int) (hn : n < l.length) :
    (l.set n x).sum = l.sum - l.getD n 0 + x := by
  induction l generalizing n with
  | nil => simp at hn
  | cons a t ih =>
    cases n with
    | zero => simp only [List.set, List.sum_cons, List.getD_cons_zero]; ring
    | succ m =>
      simp only [List.set, List.sum_cons, List.getD_cons_succ]
      rw [ih m (by simpa using hn)]
      ring

theorem sum_map_set {α : Type} (l : List α) (f : α → Int) (n : Nat) (x d : α)
    (hn : n < l.length) :
    ((l.set n x).map f).sum = (l.map f).sum - f (l.getD n d) + f x := by
  induction l generalizing n with
  | nil => simp at hn
  | cons a t ih =>
    cases n with
    | zero =>
      simp only [List.set, List.map_cons, List.sum_cons, List.getD_cons_zero]
      ring
    | succ m =>
      simp only [List.set, List.map_cons, List.sum_cons, List.getD_cons_succ]
      rw [ih m (by simpa using hn)]
      ring

theorem getD_mem_of_lt {α : Type} (l : List α) (n : Nat) (d : α) (h : n < l.length) :
    l.getD n d ∈ l := by
  rw [List.getD_eq_getElem l d h]
  exact List.getElem_mem h

theorem grandTotal_updState (σ : ExchState) (i s : Nat) (st' : Stock) (h' : Int)
    (hi : i < σ.holdings.length) (hs : s < σ.stocks.length)
    (hsi : s < (σ.holdings.getD i []).length) :
    grandTotal (updState σ i s st' h') =
      grandTotal σ - (stockAt σ s).shares + st'.shares - holdingAt σ i s + h' := by
  unfold grandTotal totalShares totalHoldings updState stockAt holdingAt
  rw [sum_map_set σ.stocks Stock.shares s st' default hs,
      sum_map_set σ.holdings List.sum i ((σ.holdings.getD i []).set s h') [] hi,
      sum_set_int (σ.holdings.getD i []) s h' hsi]
  ring

/-! Per-operation balance and nonnegativity lemmas. -/

theorem sellStep_balance (st : Stock) (h a : Int) :
    (sellStep st h a).1.shares + (sellStep st h a).2.1 = st.shares + h := by
  simp only [sellStep]
  ring

theorem buy_balance (st : Stock) (h : Int) (p : Nat) (a : Int) :
    (try_buy_or_enqueue st h p a).1.shares + (try_buy_or_enqueue st h p a).2.1 =
      st.shares + h := by
  unfold try_buy_or_enqueue
  split
  · rfl
  · split
    · rfl
    · simp only
      ring

theorem retry_balance (st : Stock) (h a : Int) :
    (retry_after_wake st h a).1.shares + (retry_after_wake st h a).2.1 =
      st.shares + h := by
  unfold retry_after_wake
  split
  · simp only
    ring
  · rfl

theorem sellStep_nonneg (st : Stock) (h a : Int) (ha : a < 0)
    (hst : 0 ≤ st.shares) (hh : 0 ≤ h) :
    0 ≤ (sellStep st h a).1.shares ∧ 0 ≤ (sellStep st h a).2.1 := by
  simp only [sellStep]
  split
  · constructor <;> omega
  · constructor <;> omega

theorem buy_nonneg (st : Stock) (h : Int) (p : Nat) (a : Int) (ha : 0 < a)
    (hst : 0 ≤ st.shares) (hh : 0 ≤ h) :
    0 ≤ (try_buy_or_enqueue st h p a).1.shares ∧
      0 ≤ (try_buy_or_enqueue st h p a).2.1 := by
  unfold try_buy_or_enqueue
  split
  · exact ⟨hst, hh⟩
  · split
    · exact ⟨hst, hh⟩
    · rename_i hlt
      constructor <;> [skip; skip] <;> simp only <;> omega

theorem retry_nonneg (st : Stock) (h a : Int) (ha : 0 < a)
    (hst : 0 ≤ st.shares) (hh : 0 ≤ h) :
    0 ≤ (retry_after_wake st h a).1.shares ∧ 0 ≤ (retry_after_wake st h a).2.1 := by
  unfold retry_after_wake
  split
  · rename_i hge
    constructor <;> simp only <;> omega
  · exact ⟨hst, hh⟩

theorem Inv_updState (σ : ExchState) (i s : Nat) (st' : Stock) (h' : Int)
    (hI : Inv σ) (hst : 0 ≤ st'.shares) (hh : 0 ≤ h') : Inv (updState σ i s st' h') := by
  obtain ⟨h1, h2⟩ := hI
  constructor
  · intro st hmem
    rcases List.mem_or_eq_of_mem_set hmem with hm | rfl
    · exact h1 st hm
    · exact hst
  · intro hv hmem x hx
    rcases List.mem_or_eq_of_mem_set hmem with hm | rfl
    · exact h2 hv hm x hx
    · rcases List.mem_or_eq_of_mem_set hx with hm | rfl
      · by_cases hi : i < σ.holdings.length
        · exact h2 _ (getD_mem_of_lt σ.holdings i [] hi) x hm
        · rw [List.getD_eq_default σ.holdings [] (by omega)] at hm
          simp at hm
      · exact hh

theorem step_grandTotal {σ σ' : ExchState} (h : Step σ σ') :
    grandTotal σ' = grandTotal σ := by
  cases h with
  | sell i s a ha hi hs hsi =>
    unfold sellResult
    rw [grandTotal_updState σ i s _ _ hi hs hsi]
    have := sellStep_balance (stockAt σ s) (holdingAt σ i s) a
    omega
  | buy i s a ha hi hs hsi =>
    unfold buyResult
    rw [grandTotal_updState σ i s _ _ hi hs hsi]
    have := buy_balance (stockAt σ s) (holdingAt σ i s) i a
    omega
  | retry i s a ha hi hs hsi =>
    unfold retryResult
    rw [grandTotal_updState σ i s _ _ hi hs hsi]
    have := retry_balance (stockAt σ s) (holdingAt σ i s) a
    omega

/-! Shutdown sequence and order-source sampling models. -/

/-- One observable action of the coordinator during shutdown (main.rs lines
222-233): writing the termination flag, unparking an agent thread, or joining
(waiting for) an agent thread. -/
inductive ShutdownEvent
  | setFlag
  | unpark (i : Nat)
  | join (i : Nat)
deriving DecidableEq, Repr

/-- Embeds the coordinator's shutdown sequence for `n` agents (main.rs lines
222-233): write `should_finish = true` once, then for each handle in order,
unpark that thread and immediately join it. -/
def shutdownEvents (n : Nat) : List ShutdownEvent :=
  ShutdownEvent.setFlag ::
    (List.range n).flatMap (fun i => [ShutdownEvent.unpark i, ShutdownEvent.join i])

/-- Restates claim C8's shutdown ordering in the spec's words, for comparison
with `shutdownEvents` (which embeds the code): set the flag, then wake every
agent, and only then start waiting for agents. -/
def claimedShutdownEvents (n : Nat) : List ShutdownEvent :=
  ShutdownEvent.setFlag ::
    ((List.range n).map ShutdownEvent.unpark ++ (List.range n).map ShutdownEvent.join)

/-- Embeds the support of `Range::new(-10, 10).ind_sample` (main.rs line 81):
rand 0.3's `Range::new(low, high)` draws uniformly from the half-open interval
`[low, high)`, so the drawable signed amounts are -10, -9, ..., 9. -/
def amountSupport : List Int := (List.range 20).map (fun k => -10 + (k : Int))

/-- Embeds the support of `Range::new(0, stocks.len()).ind_sample` (main.rs
line 85): the drawable target stock indices are 0, ..., stockCount - 1. -/
def stockIndexSupport (stockCount : Nat) : List Nat := List.range stockCount

/-- Possible buy sizes: the positive drawable amounts. -/
def buySizes : List Int := amountSupport.filter (fun a => decide (0 < a))

/-- Possible sell sizes: the magnitudes of the negative drawable amounts. -/
def sellSizes : List Int := (amountSupport.filter (fun a => decide (a < 0))).map (fun a => -a)

theorem bind_decomp {β : Type} (f : Nat → List β) (n i : Nat) (hi : i < n) :
    ∃ l₁ l₂, (List.range n).flatMap f = l₁ ++ f i ++ l₂ := by
  induction n with
  | zero => omega
  | succ m ih =>
    rw [List.range_succ, List.flatMap_append]
    rcases Nat.lt_or_ge i m with him | him
    · obtain ⟨l₁, l₂, hl⟩ := ih him
      refine ⟨l₁, l₂ ++ [m].flatMap f, ?_⟩
      rw [hl]
      simp [List.append_assoc]
    · have him' : i = m := by omega
      subst him'
      exact ⟨(List.range i).flatMap f, [], by simp⟩

theorem count_setFlag_pairs (n : Nat) :
    ((List.range n).flatMap
        (fun i => [ShutdownEvent.unpark i, ShutdownEvent.join i])).count
      ShutdownEvent.setFlag = 0 := by
  rw [List.count_eq_zero]
  intro hmem
  rw [List.mem_flatMap] at hmem
  obtain ⟨i, _, hx⟩ := hmem
  simp at hx

theorem step_Inv {σ σ' : ExchState} (hI : Inv σ) (h : Step σ σ') : Inv σ' := by
  have hstm : ∀ s, s < σ.stocks.length → 0 ≤ (stockAt σ s).shares := by
    intro s hs
    exact hI.1 _ (getD_mem_of_lt σ.stocks s default hs)
  have hhm : ∀ i s, i < σ.holdings.length → s < (σ.holdings.getD i []).length →
      0 ≤ holdingAt σ i s := by
    intro i s hi hsi
    exact hI.2 _ (getD_mem_of_lt σ.holdings i [] hi) _
      (getD_mem_of_lt (σ.holdings.getD i []) s 0 hsi)
  cases h with
  | sell i s a ha hi hs hsi =>
    have hn := sellStep_nonneg (stockAt σ s) (holdingAt σ i s) a ha
      (hstm s hs) (hhm i s hi hsi)
    exact Inv_updState σ i s _ _ hI hn.1 hn.2
  | buy i s a ha hi hs hsi =>
    have hn := buy_nonneg (stockAt σ s) (holdingAt σ i s) i a ha
      (hstm s hs) (hhm i s hi hsi)
    exact Inv_updState σ i s _ _ hI hn.1 hn.2
  | retry i s a ha hi hs hsi =>
    have hn := retry_nonneg (stockAt σ s) (holdingAt σ i s) a ha
      (hstm s hs) (hhm i s hi hsi)
    exact Inv_updState σ i s _ _ hI hn.1 hn.2

/-! Claim theorems. -/

/-- C1: conservation. Along any run — any finite sequence of sell, buy and
retry steps by any agents on any stocks — the grand total of all stocks'
shares plus all agents' holdings is unchanged, so the final reconciliation
equals the initial total; each single operation changes the acted-on stock's
shares and the acting agent's holdings by exactly opposite amounts. -/
theorem C1_conservation : ∀ σ σ' : ExchState,
    Relation.ReflTransGen Step σ σ' → grandTotal σ' = grandTotal σ := by
  intro σ σ' h
  induction h with
  | refl => rfl
  | tail hab hbc ih => rw [step_grandTotal hbc, ih]

/-- Witness for C1 at a concrete one-step run: one stock with 10 shares, one
agent holding 5, a sell of 3. -/
theorem C1_conservation_witness :
    grandTotal (sellResult ⟨[⟨10, []⟩], [[5]]⟩ 0 0 (-3)) =
      grandTotal ⟨[⟨10, []⟩], [[5]]⟩ :=
  C1_conservation _ _ (Relation.ReflTransGen.single
    (Step.sell ⟨[⟨10, []⟩], [[5]]⟩ 0 0 (-3) (by decide) (by decide) (by decide)
      (by decide)))

/-- C5: nonnegativity. Every single operation (capped sell, guarded immediate
buy, guarded post-wake buy) preserves the invariant that all share counts and
all holdings are nonnegative, and hence the invariant holds in every state
reachable from a nonnegative state. -/
theorem C5_nonneg :
    (∀ σ σ' : ExchState, Inv σ → Step σ σ' → Inv σ') ∧
    (∀ σ σ' : ExchState, Inv σ → Relation.ReflTransGen Step σ σ' → Inv σ') := by
  constructor
  · intro σ σ' hI h
    exact step_Inv hI h
  · intro σ σ' hI h
    induction h with
    | refl => exact hI
    | tail hab hbc ih => exact step_Inv ih hbc

/-- Witness for C5 at a concrete step: a sell of 7 by an agent holding 5
(capped to 5) keeps everything nonnegative. -/
theorem C5_nonneg_witness : Inv (sellResult ⟨[⟨10, []⟩], [[5]]⟩ 0 0 (-7)) :=
  C5_nonneg.1 _ _ (by constructor <;> decide)
    (Step.sell ⟨[⟨10, []⟩], [[5]]⟩ 0 0 (-7) (by decide) (by decide) (by decide)
      (by decide))

/-- C3: first buy attempt. With a positive amount: a non-empty queue always
enqueues at the back (`Enqueued`, no state change otherwise); an empty queue
with enough shares buys immediately (`Immediate`, shares down by the amount,
holdings up by the amount); an empty queue with too few shares enqueues. -/
theorem C3_try_buy : ∀ (st : Stock) (h : Int) (p : Nat) (a : Int), 0 < a →
    (st.queue ≠ [] →
      try_buy_or_enqueue st h p a =
        (⟨st.shares, st.queue ++ [⟨p, a⟩]⟩, h, BuyOutcome.Enqueued)) ∧
    (st.queue = [] → a ≤ st.shares →
      try_buy_or_enqueue st h p a =
        (⟨st.shares - a, []⟩, h + a, BuyOutcome.Immediate)) ∧
    (st.queue = [] → st.shares < a →
      try_buy_or_enqueue st h p a =
        (⟨st.shares, [⟨p, a⟩]⟩, h, BuyOutcome.Enqueued)) := by
  intro st h p a ha
  refine ⟨?_, ?_, ?_⟩
  · intro hq
    unfold try_buy_or_enqueue
    rw [if_pos (by simpa [List.length_pos] using hq)]
  · intro hq hle
    unfold try_buy_or_enqueue
    rw [hq]
    rw [if_neg (by simp), if_neg (by omega)]
  · intro hq hlt
    unfold try_buy_or_enqueue
    rw [hq]
    rw [if_neg (by simp), if_pos hlt]
    simp

/-- Witness for C3: with a waiting request the new request of 3 goes to the
back of the line despite 5 shares being available; with an empty queue the
same request buys immediately. -/
theorem C3_try_buy_witness :
    try_buy_or_enqueue ⟨5, [⟨7, 2⟩]⟩ 0 1 3 =
      (⟨5, [⟨7, 2⟩, ⟨1, 3⟩]⟩, 0, BuyOutcome.Enqueued) ∧
    try_buy_or_enqueue ⟨5, []⟩ 0 1 3 = (⟨5 - 3, []⟩, 0 + 3, BuyOutcome.Immediate) :=
  ⟨(C3_try_buy ⟨5, [⟨7, 2⟩]⟩ 0 1 3 (by decide)).1 (by decide),
   (C3_try_buy ⟨5, []⟩ 0 1 3 (by decide)).2.1 rfl (by decide)⟩

/-- C4: post-wake retry. Under the freshly reacquired lock, the woken agent
buys (shares down by the amount, holdings up by the amount, queue untouched)
exactly when `shares >= amount`; otherwise the order is `Abandoned` with
stock, holdings and queue all unchanged, and no requeue ever happens. -/
theorem C4_retry : ∀ (st : Stock) (h a : Int),
    (a ≤ st.shares →
      retry_after_wake st h a =
        (⟨st.shares - a, st.queue⟩, h + a, RetryOutcome.Bought)) ∧
    (st.shares < a →
      retry_after_wake st h a = (st, h, RetryOutcome.Abandoned)) := by
  intro st h a
  constructor
  · intro hle
    unfold retry_after_wake
    rw [if_pos hle]
  · intro hlt
    unfold retry_after_wake
    rw [if_neg (by omega)]

/-- Witness for C4: a retry of 3 against 0 shares abandons with nothing
changed; a retry of 3 against 7 shares buys. -/
theorem C4_retry_witness :
    retry_after_wake ⟨0, [⟨2, 4⟩]⟩ 5 3 = (⟨0, [⟨2, 4⟩]⟩, 5, RetryOutcome.Abandoned) ∧
    retry_after_wake ⟨7, []⟩ 5 3 = (⟨7 - 3, []⟩, 5 + 3, RetryOutcome.Bought) :=
  ⟨(C4_retry ⟨0, [⟨2, 4⟩]⟩ 5 3).2 (by decide),
   (C4_retry ⟨7, []⟩ 5 3).1 (by decide)⟩

/-- C6: sell cap. When the drawn magnitude exceeds the agent's holdings of the
target stock, the sale is clamped to exactly the holdings: post-sell holdings
for that stock are exactly 0 and the stock's shares grow by exactly the
clamped amount. -/
theorem C6_sell_cap : ∀ (st : Stock) (h a : Int), a < 0 → h < -a →
    (sellStep st h a).2.1 = 0 ∧ (sellStep st h a).1.shares = st.shares + h := by
  intro st h a ha hcap
  unfold sellStep
  rw [if_pos (by omega)]
  constructor
  · show h + -h = 0
    ring
  · show st.shares - -h = st.shares + h
    ring

/-- Witness for C6: an agent holding 4 who draws a sell of 9 ends with 0 and
the stock gains exactly 4. -/
theorem C6_sell_cap_witness :
    (sellStep ⟨10, []⟩ 4 (-9)).2.1 = 0 ∧ (sellStep ⟨10, []⟩ 4 (-9)).1.shares = 10 + 4 :=
  C6_sell_cap ⟨10, []⟩ 4 (-9) (by decide) (by decide)

/-- C9: a buyer woken by the coordinator's forced shutdown wake while its
request is still queued does not necessarily abandon: whenever
`shares >= amount` at retry time it buys, and its stale `PurchaseRequest`
stays in the queue because the retry never touches the queue — only the
seller-side wake scan pops entries. -/
theorem C9_stale_request : ∀ (st : Stock) (h a : Int) (r : PurchaseRequest),
    r ∈ st.queue → a ≤ st.shares →
    retry_after_wake st h a =
      (⟨st.shares - a, st.queue⟩, h + a, RetryOutcome.Bought) ∧
    r ∈ (retry_after_wake st h a).1.queue := by
  intro st h a r hr hle
  have heq : retry_after_wake st h a =
      (⟨st.shares - a, st.queue⟩, h + a, RetryOutcome.Bought) := by
    unfold retry_after_wake
    rw [if_pos hle]
  refine ⟨heq, ?_⟩
  rw [heq]
  exact hr

/-- Witness for C9: a queued request of 3 against 8 shares buys and remains
queued. -/
theorem C9_stale_request_witness :
    retry_after_wake ⟨8, [⟨0, 3⟩]⟩ 0 3 =
      (⟨8 - 3, [⟨0, 3⟩]⟩, 0 + 3, RetryOutcome.Bought) ∧
    (⟨0, 3⟩ : PurchaseRequest) ∈ (retry_after_wake ⟨8, [⟨0, 3⟩]⟩ 0 3).1.queue :=
  C9_stale_request ⟨8, [⟨0, 3⟩]⟩ 0 3 ⟨0, 3⟩ (by decide) (by decide)

/-- C10: a zero-capped sell. An agent with zero holdings of the chosen stock
who draws a negative amount still takes the sell path with the amount capped
to 0: shares and holdings are unchanged, yet the wake scan runs exactly as
after any sell and in particular wakes the front request whenever the share
count is positive and covers its amount. -/
theorem C10_zero_sell : ∀ (st : Stock) (a : Int), a < 0 →
    (sellStep st 0 a).1.shares = st.shares ∧
    (sellStep st 0 a).2.1 = 0 ∧
    (sellStep st 0 a).1.queue = (wakeScan st.shares st.queue st.shares).1 ∧
    (sellStep st 0 a).2.2 = (wakeScan st.shares st.queue st.shares).2 ∧
    (∀ r rest, st.queue = r :: rest → r.amount ≤ st.shares → 0 < st.shares →
      r ∈ (sellStep st 0 a).2.2) := by
  intro st a ha
  have h1 : sellStep st 0 a =
      (⟨st.shares, (wakeScan st.shares st.queue st.shares).1⟩, 0,
        (wakeScan st.shares st.queue st.shares).2) := by
    unfold sellStep
    rw [if_pos (by omega : -a > (0 : Int))]
    simp
  refine ⟨by rw [h1], by rw [h1], by rw [h1], by rw [h1], ?_⟩
  intro r rest hq hr hpos
  rw [h1]
  show r ∈ (wakeScan st.shares st.queue st.shares).2
  rw [hq]
  simp only [wakeScan]
  rw [if_neg (by omega), if_pos hr]
  exact List.mem_cons_self r _

/-- Witness for C10: zero holdings, a drawn sell of 2, a queued request of 4
against 5 shares: nothing changes except that the request is woken. -/
theorem C10_zero_sell_witness :
    (sellStep ⟨5, [⟨3, 4⟩]⟩ 0 (-2)).1.shares = 5 ∧
    (⟨3, 4⟩ : PurchaseRequest) ∈ (sellStep ⟨5, [⟨3, 4⟩]⟩ 0 (-2)).2.2 :=
  ⟨(C10_zero_sell ⟨5, [⟨3, 4⟩]⟩ (-2) (by decide)).1,
   (C10_zero_sell ⟨5, [⟨3, 4⟩]⟩ (-2) (by decide)).2.2.2.2 ⟨3, 4⟩ [] rfl (by decide)
     (by decide)⟩

/-- C2 counterexample: the claim as stated (the scan stops only when the queue
is empty or a popped request's amount exceeds the share count) is false. With
5 shares and queue [(person 0, amount 5), (person 1, amount 1)], the scan
wakes the first request, the running estimate reaches 0 and the loop exits,
leaving a queued request whose amount 1 does not exceed the 5 shares — by the
claim it should have been popped and woken. -/
theorem C2_counterexample :
    (wakeScan 5 [⟨0, 5⟩, ⟨1, 1⟩] 5).1 = [⟨1, 1⟩] ∧
    (wakeScan 5 [⟨0, 5⟩, ⟨1, 1⟩] 5).2 = [⟨0, 5⟩] ∧
    ¬((wakeScan 5 [⟨0, 5⟩, ⟨1, 1⟩] 5).1 = [] ∨
      5 < (PurchaseRequest.mk 1 1).amount) := by
  decide

/-- C2 (amended): the wake scan pops the front repeatedly; every popped
request has amount at most the share count, is woken in FIFO order (the woken
requests are exactly the consumed prefix of the queue, the remaining queue the
corresponding suffix) and its amount is subtracted from the running estimate;
the scan stops when the queue is empty, when the running estimate (initialized
to the post-sell share count) has been driven to or below 0, or when a popped
request's amount exceeds the current share count, in which case that request
is pushed back to the front. -/
theorem C2_wake_policy : ∀ (sh est : Int) (q : List PurchaseRequest),
    (wakeScan sh q est).2 ++ (wakeScan sh q est).1 = q ∧
    (∀ r ∈ (wakeScan sh q est).2, r.amount ≤ sh) ∧
    ((wakeScan sh q est).1 = [] ∨
      est - ((wakeScan sh q est).2.map PurchaseRequest.amount).sum ≤ 0 ∨
      ∃ r rest, (wakeScan sh q est).1 = r :: rest ∧ sh < r.amount) := by
  intro sh est q
  induction q generalizing est with
  | nil =>
    refine ⟨rfl, ?_, Or.inl rfl⟩
    intro r hr
    simp [wakeScan] at hr
  | cons r rest ih =>
    by_cases h1 : est ≤ 0
    · simp only [wakeScan, if_pos h1]
      refine ⟨rfl, by simp, Or.inr (Or.inl (by simpa using h1))⟩
    · by_cases h2 : r.amount ≤ sh
      · obtain ⟨ha, hb, hc⟩ := ih (est - r.amount)
        simp only [wakeScan, if_neg h1, if_pos h2]
        refine ⟨?_, ?_, ?_⟩
        · show r :: ((wakeScan sh rest (est - r.amount)).2 ++
            (wakeScan sh rest (est - r.amount)).1) = r :: rest
          rw [ha]
        · intro x hx
          rcases List.mem_cons.mp hx with hx | hx
          · subst hx
            exact h2
          · exact hb x hx
        · rcases hc with hc | hc | hc
          · exact Or.inl hc
          · refine Or.inr (Or.inl ?_)
            simp only [List.map_cons, List.sum_cons]
            linarith
          · exact Or.inr (Or.inr hc)
      · simp only [wakeScan, if_neg h1, if_neg h2]
        exact ⟨rfl, by simp, Or.inr (Or.inr ⟨r, rest, rfl, by omega⟩)⟩

/-- Witness for C2 at a concrete invocation: 15 shares, one queued request of
8; the request is woken and its amount is at most the share count. -/
theorem C2_wake_policy_witness :
    (wakeScan 15 [⟨0, 8⟩] 15).2 ++ (wakeScan 15 [⟨0, 8⟩] 15).1 = [⟨0, 8⟩] ∧
    (PurchaseRequest.mk 0 8).amount ≤ 15 :=
  ⟨(C2_wake_policy 15 15 [⟨0, 8⟩]).1,
   (C2_wake_policy 15 15 [⟨0, 8⟩]).2.1 ⟨0, 8⟩ (by decide)⟩

/-- C7 counterexample: the drawn amount range is not symmetric about zero. A
sell size of 10 is drawable (the draw -10 is in `Range::new(-10, 10)`'s
half-open support) but a buy size of 10 is not (10 itself is excluded), so the
set of possible buy sizes differs from the set of possible sell sizes. -/
theorem C7_counterexample :
    (10 : Int) ∈ sellSizes ∧ (10 : Int) ∉ buySizes := by
  decide

/-- C7 (amended): each iteration draws the signed amount from the bounded
half-open range [-10, 10) — so the possible sell magnitudes are 1..10 but the
possible buy sizes only 1..9, a range that is bounded but not symmetric about
zero — and draws the target stock index from [0, stockCount). -/
theorem C7_order_support : ∀ (n k : Nat),
    buySizes = [1, 2, 3, 4, 5, 6, 7, 8, 9] ∧
    sellSizes = [10, 9, 8, 7, 6, 5, 4, 3, 2, 1] ∧
    (∀ a ∈ amountSupport, -10 ≤ a ∧ a < 10) ∧
    (k ∈ stockIndexSupport n ↔ k < n) := by
  intro n k
  refine ⟨by decide, by decide, by decide, ?_⟩
  simp [stockIndexSupport]

/-- Witness for C7 at concrete inputs: -10 is a drawable amount within the
bounds, and index 3 is drawable among 20 stocks. -/
theorem C7_order_support_witness :
    (-10 ≤ (-10 : Int) ∧ (-10 : Int) < 10) ∧ (3 ∈ stockIndexSupport 20 ↔ 3 < 20) :=
  ⟨(C7_order_support 20 3).2.2.1 (-10) (by decide), (C7_order_support 20 3).2.2.2⟩

/-- C8 counterexample: the coordinator does not wake every agent before
waiting for any agent. Already with 2 agents the code's shutdown sequence
interleaves unpark and join per handle — agent 1 is unparked only after agent
0 has been joined — so it differs from the claimed flag-unpark-all-join-all
order. -/
theorem C8_counterexample :
    shutdownEvents 2 = [ShutdownEvent.setFlag, ShutdownEvent.unpark 0,
      ShutdownEvent.join 0, ShutdownEvent.unpark 1, ShutdownEvent.join 1] ∧
    shutdownEvents 2 ≠ claimedShutdownEvents 2 := by
  decide

/-- C8 (amended): at shutdown the coordinator first sets the termination flag,
exactly once; then for each agent in index order it wakes that agent's
suspension point and immediately waits for that agent to terminate — every
agent is woken before it is itself waited on, but agents after the first are
woken only after all earlier agents have terminated. -/
theorem C8_shutdown : ∀ n : Nat,
    (shutdownEvents n).head? = some ShutdownEvent.setFlag ∧
    (shutdownEvents n).count ShutdownEvent.setFlag = 1 ∧
    ∀ i, i < n → ∃ l₁ l₂,
      shutdownEvents n = l₁ ++ ShutdownEvent.unpark i :: ShutdownEvent.join i :: l₂ := by
  intro n
  refine ⟨rfl, ?_, ?_⟩
  · rw [shutdownEvents, List.count_cons_self, count_setFlag_pairs]
  · intro i hi
    obtain ⟨l₁, l₂, hl⟩ :=
      bind_decomp (fun i => [ShutdownEvent.unpark i, ShutdownEvent.join i]) n i hi
    refine ⟨ShutdownEvent.setFlag :: l₁, l₂, ?_⟩
    rw [shutdownEvents, hl]
    simp

/-- Witness for C8 with 2 agents: the flag is recorded once and agent 1 is
unparked and then joined. -/
theorem C8_shutdown_witness :
    (shutdownEvents 2).count ShutdownEvent.setFlag = 1 ∧
    ∃ l₁ l₂, shutdownEvents 2 =
      l₁ ++ ShutdownEvent.unpark 1 :: ShutdownEvent.join 1 :: l₂ :=
  ⟨(C8_shutdown 2).2.1, (C8_shutdown 2).2.2 1 (by decide)⟩

end TrustExchange
